import Mathlib

/-!
Shallow embedding of the slabfs namespace/object-table engine
(src/main.rs, src/inode.rs, src/perm.rs, src/file_entry.rs, src/file_io.rs).

Machine integers are modelled as `Nat` with explicit `% 2^64` where the
source relies on `u64` wrapping (the atomic reference counter).  File
names are byte lists (`CStr::to_bytes`), file contents are byte lists.
Operations that can `panic!`/`unwrap`/`expect`/UB in the source return
`Option` results, `none` marking the panic.  `Vec::try_reserve` is
modelled as always succeeding (the allocator is outside the embedding);
bytes of a `Vec`'s spare capacity exposed by `set_len` without being
written are uninitialized in the source and are modelled by an explicit
oracle `junk : Nat → Nat`.
-/

/-- Modulus of the 64-bit reference counter (`AtomicU64`). -/
def u64Mod : Nat := 18446744073709551616

/-- Largest `usize` value on the 64-bit target (`usize::MAX`). -/
def usizeMax : Nat := u64Mod - 1

/-- Bit mask `libc::S_IFMT` (0o170000). -/
def sIFMT : Nat := 61440

/-- Bit value `libc::S_IFREG` (0o100000). -/
def sIFREG : Nat := 32768

/-- Bit value `libc::S_IFDIR` (0o40000). -/
def sIFDIR : Nat := 16384

/-- Complement of `S_IFMT` inside a `u32` (`!libc::S_IFMT`). -/
def notIFMT : Nat := 4294967295 - sIFMT

/-- Union of all permission bits known to the `FsPerm` bitflags (0o777). -/
def fsPermAll : Nat := 511

/-- Error kinds produced by the engine (`ioerr!` uses, src/main.rs and
friends): `NotFound`, `Unsupported`, `InvalidInput`, `OutOfMemory`, and
the raw `libc::ENFILE` used by `InodeInfo::refinc`. -/
inductive FsError where
  | notFound
  | unsupported
  | invalidInput
  | outOfMemory
  | tooManyFiles
  deriving DecidableEq, Repr

/-- Decidable equality of fallible results, used to evaluate the engine
on concrete inputs. -/
instance {ε α : Type} [DecidableEq ε] [DecidableEq α] :
    DecidableEq (Except ε α) := fun x y =>
  match x, y with
  | .ok a, .ok b =>
    if h : a = b then .isTrue (by rw [h])
    else .isFalse (fun hc => h (by cases hc; rfl))
  | .error e, .error f =>
    if h : e = f then .isTrue (by rw [h])
    else .isFalse (fun hc => h (by cases hc; rfl))
  | .ok _, .error _ => .isFalse (fun hc => by cases hc)
  | .error _, .ok _ => .isFalse (fun hc => by cases hc)

/-- File kinds of `FsType` (src/file_entry.rs). -/
inductive FsType where
  | reg
  | dir
  | chr
  | blk
  | fifo
  | lnk
  | sock
  deriving DecidableEq, Repr

/-- `FsType::try_from(u32)`: classify `val & S_IFMT`, accepting only the
regular-file and directory patterns (src/file_entry.rs lines 23-35). -/
def FsType.try_from (val : Nat) : Except FsError FsType :=
  if val &&& sIFMT = sIFREG then .ok .reg
  else if val &&& sIFMT = sIFDIR then .ok .dir
  else .error .unsupported

/-- Payload of an object record, `FsEntry` (src/file_entry.rs): a byte
buffer for files, an ordered (child inode, child name) list for
directories. -/
inductive FsEntry where
  | file (data : List Nat)
  | dir (children : List (Nat × List Nat))
  deriving DecidableEq, Repr

/-- `FsEntry::file()`: empty byte buffer. -/
def FsEntry.fileNew : FsEntry := .file []

/-- `FsEntry::dir()`: empty child list. -/
def FsEntry.dirNew : FsEntry := .dir []

/-- `FsEntry::try_from(FsType)` (src/file_entry.rs lines 53-62). -/
def FsEntry.try_from : FsType → Except FsError FsEntry
  | .reg => .ok FsEntry.fileNew
  | .dir => .ok FsEntry.dirNew
  | _ => .error .unsupported

/-- True exactly on directory payloads. -/
def FsEntry.isDir : FsEntry → Bool
  | .dir _ => true
  | .file _ => false

/-- `FsPerm::try_from(u32)` (src/perm.rs lines 22-28): mask off the
`S_IFMT` bits and accept the rest exactly when only the 0o777 permission
bits remain (`bitflags::from_bits`). -/
def FsPerm.try_from (val : Nat) : Except FsError Nat :=
  let masked := val &&& notIFMT
  if masked &&& fsPermAll = masked then .ok masked else .error .invalidInput

/-- `FsPerm::dir()` = `0o755` (src/perm.rs lines 31-35). -/
def FsPerm.dirBits : Nat := 493

/-- `FsPerm::file()` = `0o644` (src/perm.rs lines 37-42). -/
def FsPerm.fileBits : Nat := 420

/-- One object record, `InodeInfo` (src/inode.rs lines 35-46): reference
count (`AtomicU64`), creation name bytes, permission bits, owner and
payload. -/
structure InodeInfo where
  refs : Nat
  name : List Nat
  perm : Nat
  uid : Nat
  gid : Nat
  entry : FsEntry
  deriving DecidableEq, Repr

/-- `InodeInfo::empty()` (src/inode.rs lines 86-94): the reserved slot-0
placeholder, reference count 0, default owner 1000:100, file payload. -/
def InodeInfo.empty : InodeInfo :=
  ⟨0, [], FsPerm.fileBits, 1000, 100, FsEntry.fileNew⟩

/-- `InodeInfo::dir(name)` (src/inode.rs lines 75-84): a directory record
with reference count 1 and default owner. -/
def InodeInfo.dirOf (name : List Nat) : InodeInfo :=
  ⟨1, name, FsPerm.dirBits, 1000, 100, FsEntry.dirNew⟩

/-- `InodeInfo::create(name, ctx, args)` (src/inode.rs lines 49-61):
validate the permission bits, then the file kind, build the payload, and
start the reference count at 1. -/
def InodeInfo.create (name : List Nat) (uid gid mode : Nat) :
    Except FsError InodeInfo := do
  let perm ← FsPerm.try_from mode
  let t ← FsType.try_from mode
  let entry ← FsEntry.try_from t
  .ok ⟨1, name, perm, uid, gid, entry⟩

/-- `InodeInfo::refinc` (src/inode.rs lines 96-102): `fetch_add(1)` on the
64-bit counter (wrapping), reporting `ENFILE` when the previous value was
`u64::MAX`.  Returns the updated record and the error flag. -/
def InodeInfo.refinc (i : InodeInfo) : InodeInfo × Bool :=
  ({i with refs := (i.refs + 1) % u64Mod}, i.refs == u64Mod - 1)

/-- `InodeInfo::refsub(count)` (src/inode.rs lines 104-107):
`fetch_sub(count)` on the 64-bit counter (wrapping); the record is to be
deleted when the previous value was `≤ count`. -/
def InodeInfo.refsub (i : InodeInfo) (count : Nat) : InodeInfo × Bool :=
  ({i with refs := (i.refs + (u64Mod - count % u64Mod)) % u64Mod},
   decide (i.refs ≤ count))

/-- `InodeInfo::add_child(ino, name)` (src/inode.rs lines 178-186): push
the pair onto a directory's child list, `NotFound` on a file. -/
def InodeInfo.add_child (i : InodeInfo) (ino : Nat) (name : List Nat) :
    Except FsError InodeInfo :=
  match i.entry with
  | .dir ch => .ok {i with entry := .dir (ch ++ [(ino, name)])}
  | .file _ => .error .notFound

/-- `InodeInfo::children` (src/inode.rs lines 188-193). -/
def InodeInfo.children (i : InodeInfo) : Except FsError (List (Nat × List Nat)) :=
  match i.entry with
  | .dir ch => .ok ch
  | .file _ => .error .notFound

/-- One slot of the `Slab` backing store (the `slab` crate): occupied, or
vacant holding the next free-list link. -/
inductive SlabEntry where
  | occupied (info : InodeInfo)
  | vacant (link : Nat)
  deriving DecidableEq, Repr

/-- The object pool `Slab<InodeInfo>`: the slot array plus the head of the
vacant free list (`next`). -/
structure Slab where
  entries : List SlabEntry
  next : Nat
  deriving DecidableEq, Repr

/-- `Slab::get` (backing `FsFiles::get`, src/main.rs lines 64-68): `none`
when the index is out of range or the slot is vacant. -/
def Slab.get (s : Slab) (ino : Nat) : Option InodeInfo :=
  match s.entries[ino]? with
  | some (.occupied info) => some info
  | _ => none

/-- Overwrite a slot with an occupied record (the effect of mutating
through `FsFiles::get_mut`). -/
def Slab.set (s : Slab) (ino : Nat) (v : InodeInfo) : Slab :=
  ⟨s.entries.set ino (.occupied v), s.next⟩

/-- `Slab::insert` (the slab crate's `insert`/`insert_at`): take the
free-list head as the key; push when it equals the length, otherwise
replace the vacant slot and advance the free list.  `none` models the
`unreachable!` panic when the key does not name a vacant slot. -/
def Slab.insert (s : Slab) (v : InodeInfo) : Option (Nat × Slab) :=
  if s.next = s.entries.length then
    some (s.next, ⟨s.entries ++ [.occupied v], s.next + 1⟩)
  else
    match s.entries[s.next]? with
    | some (.vacant m) => some (s.next, ⟨s.entries.set s.next (.occupied v), m⟩)
    | _ => none

/-- `Slab::remove` (used by `FsFiles::remove`, src/main.rs lines 88-91):
mark the slot vacant, linking it to the old free-list head; `none` models
the panic when the slot is not occupied. -/
def Slab.remove (s : Slab) (ino : Nat) : Option Slab :=
  match s.entries[ino]? with
  | some (.occupied _) => some ⟨s.entries.set ino (.vacant s.next), ino⟩
  | _ => none

/-- True when the identifier names a live (occupied) slot. -/
def Slab.isOccupied (s : Slab) (ino : Nat) : Bool :=
  (s.get ino).isSome

/-- `Vec::swap_remove(i)`: replace position `i` with the last element and
pop the last element. -/
def swapRemove {α : Type} (l : List α) (i : Nat) : List α :=
  match l.getLast? with
  | none => l
  | some a => (l.set i a).dropLast

/-- `Vec::resize(n, 0)` as used by setattr's size change: truncate or
zero-extend the byte buffer. -/
def vecResize (data : List Nat) (n : Nat) : List Nat :=
  if n ≤ data.length then data.take n else data ++ List.replicate (n - data.length) 0

/-- Buffer produced by `FileWriter::write_at_volatile` when the copy goes
through: the prefix of the old data below `start`, the uninitialized gap
bytes (oracle `junk`) where `start` exceeds the old length, then the
written slice; `set_len(end)` makes `start + slice.len()` the new length,
dropping any old bytes past it. -/
def writeResult (junk : Nat → Nat) (data slice : List Nat) (start : Nat) : List Nat :=
  data.take start
    ++ (List.range (start - data.length)).map (fun k => junk (data.length + k))
    ++ slice

/-- `FileWriter::write_at_volatile` (src/file_io.rs lines 26-51): when
`off + slice.len()` overflows `usize` the call returns `Ok(0)` leaving the
buffer alone; otherwise it reserves, copies the slice at `off`, sets the
length to `off + slice.len()` and returns the full slice length.
`try_reserve` is modelled as succeeding. -/
def FileWriter.write_at_volatile (junk : Nat → Nat) (data slice : List Nat)
    (off : Nat) : Except FsError (List Nat × Nat) :=
  if off + slice.length ≤ usizeMax then
    .ok (writeResult junk data slice off, slice.length)
  else
    .ok (data, 0)

/-- `FileReader::read_at_volatile` (src/file_io.rs lines 82-95): bytes
copied out, empty when `off + len` overflows `usize` or `off` lies past
the end of the buffer, otherwise the slice `data[off .. min (off+len)
data.len]`. -/
def FileReader.read_at_volatile (data : List Nat) (len off : Nat) : List Nat :=
  if off + len ≤ usizeMax then
    if off ≤ data.length then (data.drop off).take len else []
  else []

/-- Initial engine state (`SlabFs::new`, src/main.rs lines 179-186): a
fresh slab after inserting `InodeInfo::empty()` at slot 0 and the root
directory `InodeInfo::dir("/")` (name bytes `[47]`) at slot 1; the next
free key is 2. -/
def SlabFs.new : Slab :=
  ⟨[.occupied InodeInfo.empty, .occupied (InodeInfo.dirOf [47])], 2⟩

/-- `SlabFs::create` (src/main.rs lines 253-275): build the record
(`InodeInfo::create`), insert it into the slab, then append it to the
parent's child list through `write_ino`; if that fails the new record is
removed again before the error is returned.  `none` is the slab-insert
panic. -/
def SlabFs.create (s : Slab) (parent : Nat) (name : List Nat)
    (mode uid gid : Nat) : Option (Slab × Except FsError Nat) :=
  match InodeInfo.create name uid gid mode with
  | .error e => some (s, .error e)
  | .ok info =>
    match s.insert info with
    | none => none
    | some (ino, s1) =>
      match s1.get parent with
      | none =>
        match s1.remove ino with
        | none => none
        | some s2 => some (s2, .error .notFound)
      | some pinfo =>
        match pinfo.add_child ino name with
        | .error e =>
          match s1.remove ino with
          | none => none
          | some s2 => some (s2, .error e)
        | .ok pinfo2 => some (s1.set parent pinfo2, .ok ino)

/-- `SlabFs::mkdir` (src/main.rs lines 277-294): `create` with
`mode | S_IFDIR`. -/
def SlabFs.mkdir (s : Slab) (parent : Nat) (name : List Nat)
    (mode uid gid : Nat) : Option (Slab × Except FsError Nat) :=
  SlabFs.create s parent name (mode ||| sIFDIR) uid gid

/-- `SlabFs::lookup` (src/main.rs lines 338-351) via `FsFiles::read_name`
(lines 151-170): scan the parent's child list for the first byte-exact
name match, resolve the child slot (a stale child is a debug `expect` /
release UB, modelled as `none`), bump its reference count with `refinc`
and return its identifier; `refinc` overflow surfaces as `ENFILE` with
the count already bumped. -/
def SlabFs.lookup (s : Slab) (parent : Nat) (name : List Nat) :
    Option (Slab × Except FsError Nat) :=
  match s.get parent with
  | none => some (s, .error .notFound)
  | some pinfo =>
    match pinfo.children with
    | .error e => some (s, .error e)
    | .ok ch =>
      match ch.find? (fun c => c.2 == name) with
      | none => some (s, .error .notFound)
      | some (c, _) =>
        match s.get c with
        | none => none
        | some cinfo =>
          let r := cinfo.refinc
          let s2 := s.set c r.1
          if r.2 then some (s2, .error .tooManyFiles) else some (s2, .ok c)

/-- `SlabFs::forget` (src/main.rs lines 353-367): `read_ino(inode,
refsub(count)).unwrap()` — the `unwrap` panics (`none`) when the inode
does not name a live slot; otherwise the counter is decremented and the
slot removed when the previous count was `≤ count`. -/
def SlabFs.forget (s : Slab) (ino count : Nat) : Option Slab :=
  match s.get ino with
  | none => none
  | some info =>
    let r := info.refsub count
    let s2 := s.set ino r.1
    if r.2 then s2.remove ino else some s2

/-- `SlabFs::batch_forget` (src/main.rs lines 369-384): the forget body
applied to each request in order, with the same `unwrap` panic on an
unknown identifier. -/
def SlabFs.batch_forget (s : Slab) (reqs : List (Nat × Nat)) : Option Slab :=
  reqs.foldlM (fun st r => SlabFs.forget st r.1 r.2) s

/-- `FsFiles::unlink_inode` (src/main.rs lines 104-114), the shared body
of `rmdir` and `unlink`: find the first child of the parent directory
with a byte-exact name match and `swap_remove` it; `NotFound` when the
parent is missing, not a directory, or has no such child. -/
def FsFiles.unlink_inode (s : Slab) (parent : Nat) (name : List Nat) :
    Slab × Except FsError Unit :=
  match s.get parent with
  | none => (s, .error .notFound)
  | some pinfo =>
    match pinfo.entry with
    | .file _ => (s, .error .notFound)
    | .dir ch =>
      match ch.findIdx? (fun c => c.2 == name) with
      | none => (s, .error .notFound)
      | some i =>
        (s.set parent {pinfo with entry := .dir (swapRemove ch i)}, .ok ())

/-- `SlabFs::rmdir` (src/main.rs lines 430-438): exactly
`unlink_inode`. -/
def SlabFs.rmdir (s : Slab) (parent : Nat) (name : List Nat) :
    Slab × Except FsError Unit :=
  FsFiles.unlink_inode s parent name

/-- `SlabFs::unlink` (src/main.rs lines 440-448): exactly
`unlink_inode`. -/
def SlabFs.unlink (s : Slab) (parent : Nat) (name : List Nat) :
    Slab × Except FsError Unit :=
  FsFiles.unlink_inode s parent name

/-- `SlabFs::read` (src/main.rs lines 296-314): resolve the file's byte
buffer (`NotFound` for a missing slot or a directory) and copy out via
`FileReader::read_at_volatile`; the state is untouched. -/
def SlabFs.read (s : Slab) (ino : Nat) (size off : Nat) :
    Slab × Except FsError (List Nat) :=
  match s.get ino with
  | none => (s, .error .notFound)
  | some info =>
    match info.entry with
    | .dir _ => (s, .error .notFound)
    | .file d => (s, .ok (FileReader.read_at_volatile d size off))

/-- `SlabFs::write` (src/main.rs lines 316-336): resolve the file's byte
buffer (`NotFound` for a missing slot or a directory) and copy the bytes
in via `FileWriter::write_at_volatile`, storing the resulting buffer. -/
def SlabFs.write (junk : Nat → Nat) (s : Slab) (ino : Nat)
    (bytes : List Nat) (off : Nat) : Slab × Except FsError Nat :=
  match s.get ino with
  | none => (s, .error .notFound)
  | some info =>
    match info.entry with
    | .dir _ => (s, .error .notFound)
    | .file d =>
      match FileWriter.write_at_volatile junk d bytes off with
      | .error e => (s, .error e)
      | .ok (d2, n) => (s.set ino {info with entry := .file d2}, .ok n)

/-- `SlabFs::setattr` (src/main.rs lines 399-428): apply the requested
fields in order — uid, gid, mode (`FsPerm::try_from`, aborting with
`InvalidInput` on bad bits), then size (`file_data` aborts with
`NotFound` on a directory, otherwise `resize(size, 0)`).  Fields already
applied when a later one fails stay applied. -/
def SlabFs.setattr (s : Slab) (ino : Nat) (auid agid amode asize : Nat)
    (vuid vgid vmode vsize : Bool) : Slab × Except FsError Unit :=
  match s.get ino with
  | none => (s, .error .notFound)
  | some info =>
    let i1 := if vuid then {info with uid := auid} else info
    let i2 := if vgid then {i1 with gid := agid} else i1
    match (if vmode then FsPerm.try_from amode else .ok i2.perm) with
    | .error e => (s.set ino i2, .error e)
    | .ok p =>
      let i3 := {i2 with perm := p}
      if vsize then
        match i3.entry with
        | .dir _ => (s.set ino i3, .error .notFound)
        | .file d =>
          (s.set ino {i3 with entry := .file (vecResize d asize)}, .ok ())
      else
        (s.set ino i3, .ok ())

/-- Children walk of `SlabFs::readdir`: resolve every listed child (a
vacant child slot is the `expect("Stale child?")` panic, modelled as
`none`) and emit `(child ino, index + 1)` with the absolute enumeration
index, the sink accepting every entry. -/
def readdirEntries (s : Slab) : List (Nat × List Nat) → Nat →
    Option (List (Nat × Nat))
  | [], _ => some []
  | (c, _) :: rest, i =>
    match s.get c with
    | none => none
    | some _ => (readdirEntries s rest (i + 1)).map (fun l => (c, i + 1) :: l)

/-- `SlabFs::readdir` (src/main.rs lines 216-251): nothing for a zero
`size`; otherwise enumerate the directory's child list from `offset`,
resolving each child (panic on a stale one) and reporting position
`index + 1`. -/
def SlabFs.readdir (s : Slab) (ino : Nat) (size off : Nat) :
    Option (Except FsError (List (Nat × Nat))) :=
  if size = 0 then some (.ok []) else
  match s.get ino with
  | none => some (.error .notFound)
  | some info =>
    match info.children with
    | .error e => some (.error e)
    | .ok ch => (readdirEntries s (ch.drop off) off).map .ok

/-- One decoded engine request, covering every state-touching operation
of the `FileSystem` impl. -/
inductive FsOp where
  | create (parent : Nat) (name : List Nat) (mode uid gid : Nat)
  | mkdir (parent : Nat) (name : List Nat) (mode uid gid : Nat)
  | lookup (parent : Nat) (name : List Nat)
  | unlink (parent : Nat) (name : List Nat)
  | rmdir (parent : Nat) (name : List Nat)
  | forget (ino count : Nat)
  | batchForget (reqs : List (Nat × Nat))
  | write (ino : Nat) (bytes : List Nat) (off : Nat)
  | setattr (ino : Nat) (auid agid amode asize : Nat)
      (vuid vgid vmode vsize : Bool)
  | read (ino size off : Nat)
  | readdir (ino size off : Nat)
  deriving DecidableEq, Repr

/-- State transition of one engine request; `none` when the request
panics. -/
def step (junk : Nat → Nat) (s : Slab) : FsOp → Option Slab
  | .create p n m u g => (SlabFs.create s p n m u g).map Prod.fst
  | .mkdir p n m u g => (SlabFs.mkdir s p n m u g).map Prod.fst
  | .lookup p n => (SlabFs.lookup s p n).map Prod.fst
  | .unlink p n => some (SlabFs.unlink s p n).1
  | .rmdir p n => some (SlabFs.rmdir s p n).1
  | .forget i c => SlabFs.forget s i c
  | .batchForget l => SlabFs.batch_forget s l
  | .write i b o => some (SlabFs.write junk s i b o).1
  | .setattr i au ag am asz vu vg vm vs =>
      some (SlabFs.setattr s i au ag am asz vu vg vm vs).1
  | .read i sz o => some (SlabFs.read s i sz o).1
  | .readdir i sz o => (SlabFs.readdir s i sz o).map (fun _ => s)

/-- State reached by running a request sequence from the freshly mounted
engine, `none` as soon as any request panics. -/
def reach (junk : Nat → Nat) (ops : List FsOp) : Option Slab :=
  ops.foldlM (step junk) SlabFs.new

/-- Constant uninitialized-memory oracle used for concrete runs whose
operations never read uninitialized bytes. -/
def junk0 : Nat → Nat := fun _ => 0

/-- Reference-protocol request aimed at a single identifier: a `lookup`
hit on the record, or a `forget`/`batch_forget` item carrying a count. -/
inductive RefOp where
  | lookup
  | forget (count : Nat)
  deriving DecidableEq, Repr

/-- Per-identifier projection of the engine's reference handling: `some
refs` is a live record, `none` a removed one.  A lookup hit runs
`InodeInfo::refinc`; a forget runs `InodeInfo::refsub` and removes the
record exactly when `refsub` reports deletion (src/main.rs lines
353-367). -/
def refStep (st : Option Nat) (op : RefOp) : Option Nat :=
  match st, op with
  | none, _ => none
  | some r, .lookup => some (InodeInfo.refinc ⟨r, [], 0, 0, 0, FsEntry.fileNew⟩).1.refs
  | some r, .forget c =>
    let p := InodeInfo.refsub ⟨r, [], 0, 0, 0, FsEntry.fileNew⟩ c
    if p.2 then none else some p.1.refs

/-- Reference state after a request sequence, from the creation count 1
(`InodeInfo::create`). -/
def refRun (ops : List RefOp) : Option Nat :=
  ops.foldl refStep (some 1)

/-- Number of lookups in a request sequence. -/
def lookCount : List RefOp → Nat
  | [] => 0
  | .lookup :: rest => lookCount rest + 1
  | .forget _ :: rest => lookCount rest

/-- Cumulative forgotten count of a request sequence. -/
def forgCount : List RefOp → Nat
  | [] => 0
  | .lookup :: rest => forgCount rest
  | .forget c :: rest => forgCount rest + c

/-- True when the request is a forget (or batched forget item) aimed at
the root identifier 1. -/
def FsOp.touchesRoot : FsOp → Bool
  | .forget i _ => i == 1
  | .batchForget l => l.any (fun r => r.1 == 1)
  | _ => false

/-- Root-preservation invariant: slot 1 is occupied by a directory
record, and neither the free-list head nor any vacant link can ever
allocate over slot 1. -/
def RootInv (s : Slab) : Prop :=
  (∃ info, s.get 1 = some info ∧ info.entry.isDir = true) ∧
  s.next ≠ 1 ∧
  ∀ (i m : Nat), s.entries[i]? = some (SlabEntry.vacant m) → m ≠ 1

/-- C1: the claim says `forget`/`batch_forget` silently ignore unknown
identifiers and never fail or abort.  In the code the result of
`read_ino`/`write_ino` is `.unwrap()`ed, so an identifier that does not
resolve to a live slot (here 5, vacant in the fresh engine) panics the
serving thread instead of being ignored: both operations evaluate to the
panic outcome `none`. -/
theorem forget_unknown_id_panics :
    Slab.get SlabFs.new 5 = none ∧
    SlabFs.forget SlabFs.new 5 1 = none ∧
    SlabFs.batch_forget SlabFs.new [(5, 1)] = none := by decide

/-- C2: the claim says a slot is never removed from the pool while some
parent's child list still holds its identifier.  Running `mkdir(1, "d")`
(allocating slot 2) and then `forget(2, 1)` removes slot 2 from the pool
while the root's child list still contains `(2, "d")`: the root still
lists the pair, slot 2 resolves to nothing, and `readdir` of the root
then dies on its own `expect("Stale child?")` (outcome `none`). -/
theorem forget_breaks_child_liveness :
    (reach junk0 [FsOp.mkdir 1 [100] 493 1000 100, FsOp.forget 2 1]).map
        (fun s => (Slab.get s 1, Slab.get s 2)) =
      some (some ⟨1, [47], 493, 1000, 100, FsEntry.dir [(2, [100])]⟩, none) ∧
    (reach junk0 [FsOp.mkdir 1 [100] 493 1000 100, FsOp.forget 2 1]).map
        (fun s => SlabFs.readdir s 1 100 0) = some none := by decide

/-- C3 counterexample: two `mkdir(1, "d")` requests in a row both
succeed, leaving the root's child list with two pairs carrying the same
name `[100]` — `add_child` pushes unconditionally, so the claimed
no-duplicate invariant fails. -/
theorem duplicate_child_names_possible :
    (reach junk0 [FsOp.mkdir 1 [100] 493 1000 100,
        FsOp.mkdir 1 [100] 493 1000 100]).map
        (fun s => (Slab.get s 1).map InodeInfo.entry) =
      some (some (FsEntry.dir [(2, [100]), (3, [100])])) := by decide

/-- C4: the claim says a write preserves the bytes outside the written
range and zero-fills any gap.  `write_at_volatile` ends with
`set_len(offset + slice.len())` unconditionally: writing one byte `9` at
offset 0 of the three-byte buffer `[1,2,3]` reports one byte written but
leaves the buffer `[9]` — the trailing bytes `2, 3` are dropped instead
of preserved (the claim requires `[9,2,3]`).  The same outcome through
the engine on a live file record. -/
theorem write_truncates_buffer :
    FileWriter.write_at_volatile junk0 [1, 2, 3] [9] 0 =
      Except.ok ([9], 1) ∧
    SlabFs.write junk0
        ⟨[SlabEntry.occupied InodeInfo.empty,
          SlabEntry.occupied (InodeInfo.dirOf [47]),
          SlabEntry.occupied ⟨1, [102], 420, 1000, 100, FsEntry.file [1, 2, 3]⟩],
         3⟩ 2 [9] 0 =
      (⟨[SlabEntry.occupied InodeInfo.empty,
         SlabEntry.occupied (InodeInfo.dirOf [47]),
         SlabEntry.occupied ⟨1, [102], 420, 1000, 100, FsEntry.file [9]⟩],
        3⟩, Except.ok 1) := by decide

/-- C6 counterexample: identifier 2 is not a live slot in the fresh
engine, yet `mkdir(parent = 2, "d")` does not fail: the pool hands the
new record exactly slot 2 (the free-list head), the parent resolution
then finds the just-inserted directory, and the append succeeds — the
call returns the new identifier and the occupied-slot set grows, with
the new directory listed as its own child. -/
theorem create_self_parent_succeeds :
    Slab.get SlabFs.new 2 = none ∧
    SlabFs.mkdir SlabFs.new 2 [100] 493 1000 100 =
      some (⟨[SlabEntry.occupied InodeInfo.empty,
              SlabEntry.occupied (InodeInfo.dirOf [47]),
              SlabEntry.occupied ⟨1, [100], 493, 1000, 100, FsEntry.dir [(2, [100])]⟩],
             3⟩, Except.ok 2) := by decide

/-- C7 counterexample: `setattr` on the root with requested uid 42 and
the invalid mode bits 0o7777 returns `InvalidInput`, yet the uid change
has already been applied — the record's owner is 42 after the failed
call, not the original 1000. -/
theorem setattr_error_mutates_uid :
    (SlabFs.setattr SlabFs.new 1 42 0 4095 0 true false true false).2 =
      Except.error FsError.invalidInput ∧
    (Slab.get (SlabFs.setattr SlabFs.new 1 42 0 4095 0 true false true false).1 1).map
        InodeInfo.uid = some 42 := by decide

/-- C8 counterexample: `forget(1, 1)` matches the root's creation count
1, so the root record is removed from the pool — identifier 1 resolves
to nothing afterwards, refuting "no operation ever removes the root". -/
theorem forget_can_remove_root :
    (reach junk0 [FsOp.forget 1 1]).map (fun s => Slab.get s 1) =
      some none := by decide

theorem slabGet_lt {s : Slab} {i : Nat} {info : InodeInfo}
    (h : Slab.get s i = some info) : i < s.entries.length := by
  by_contra hn
  rw [Slab.get, List.getElem?_eq_none (by omega)] at h
  exact absurd h (by simp)

theorem slabGet_set_self {s : Slab} {i : Nat} (v : InodeInfo)
    (h : i < s.entries.length) : Slab.get (s.set i v) i = some v := by
  simp [Slab.get, Slab.set, List.getElem?_set_self h]

theorem slabGet_set_ne {s : Slab} {i j : Nat} (v : InodeInfo)
    (h : i ≠ j) : Slab.get (s.set i v) j = Slab.get s j := by
  simp [Slab.get, Slab.set, List.getElem?_set_ne h]

theorem slabGet_push {s : Slab} {p : Nat} {e : SlabEntry} {k : Nat}
    (h : p < s.entries.length) :
    Slab.get ⟨s.entries ++ [e], k⟩ p = Slab.get s p := by
  simp [Slab.get, List.getElem?_append_left h]

theorem slabGet_mk_set_ne {l : List SlabEntry} {k k2 i j : Nat} (e : SlabEntry)
    (h : i ≠ j) : Slab.get ⟨l.set i e, k⟩ j = Slab.get ⟨l, k2⟩ j := by
  simp [Slab.get, List.getElem?_set_ne h]

theorem slabGet_mk_set_self {l : List SlabEntry} {k i : Nat} (v : InodeInfo)
    (h : i < l.length) :
    Slab.get ⟨l.set i (SlabEntry.occupied v), k⟩ i = some v := by
  simp [Slab.get, List.getElem?_set_self h]

theorem swapRemove_perm {α : Type} (l : List α) (i : Nat) (h : i < l.length) :
    (swapRemove l i).Perm (l.eraseIdx i) := by
  have hne : l ≠ [] := by
    intro e; subst e; simp at h
  rw [swapRemove, List.getLast?_eq_getLast l hne]
  show ((l.set i (l.getLast hne)).dropLast).Perm (l.eraseIdx i)
  set x := l.getLast hne with hx
  rw [List.set_eq_take_cons_drop x h, List.eraseIdx_eq_take_drop_succ]
  rcases Nat.lt_or_ge i (l.length - 1) with hlt | hge
  · have hD : l.drop (i + 1) ≠ [] := by
      intro e
      have := congrArg List.length e
      simp [List.length_drop] at this
      omega
    rw [List.dropLast_append_of_ne_nil _ (by simp), List.dropLast_cons_of_ne_nil hD]
    refine List.Perm.append_left _ ?_
    have hgl : (l.drop (i + 1)).getLast hD = x := List.getLast_drop hD
    conv_rhs => rw [← List.dropLast_concat_getLast hD, hgl]
    exact (List.perm_append_singleton _ _).symm
  · have hi : i = l.length - 1 := by omega
    have hdrop : l.drop (i + 1) = [] := by
      apply List.drop_eq_nil_of_le; omega
    rw [hdrop, List.dropLast_concat]
    simp

/-- C10: `rmdir` and `unlink` are the same operation (both call
`unlink_inode`).  The shared body succeeds exactly when the parent is a
live directory whose child list holds an entry with the given name; on
success it swap-removes the first name match (removing exactly that one
pair, the rest a permutation), touches no other slot (so a removed
child's descendants stay in the pool, with no check of the child's kind
or emptiness), and every failure is `NotFound` with the state
untouched. -/
theorem unlink_rmdir_same (s : Slab) (p : Nat) (n : List Nat) :
    SlabFs.rmdir s p n = SlabFs.unlink s p n ∧
    ((FsFiles.unlink_inode s p n).2 = Except.ok () ∨
      (FsFiles.unlink_inode s p n).2 = Except.error FsError.notFound) ∧
    ((FsFiles.unlink_inode s p n).2 = Except.ok () ↔
      ∃ info ch, Slab.get s p = some info ∧ info.entry = FsEntry.dir ch ∧
        ∃ c ∈ ch, c.2 = n) ∧
    (∀ (info : InodeInfo) (ch : List (Nat × List Nat)) (i : Nat),
      Slab.get s p = some info → info.entry = FsEntry.dir ch →
      ch.findIdx? (fun c => c.2 == n) = some i →
      FsFiles.unlink_inode s p n =
        (Slab.set s p {info with entry := FsEntry.dir (swapRemove ch i)},
          Except.ok ()) ∧
      (swapRemove ch i).Perm (ch.eraseIdx i)) ∧
    (∀ q, q ≠ p → Slab.get (FsFiles.unlink_inode s p n).1 q = Slab.get s q) ∧
    ((FsFiles.unlink_inode s p n).2 = Except.error FsError.notFound →
      (FsFiles.unlink_inode s p n).1 = s) := by
  refine ⟨rfl, ?_⟩
  rcases hget : Slab.get s p with _ | info
  · have hu : FsFiles.unlink_inode s p n = (s, Except.error FsError.notFound) := by
      simp [FsFiles.unlink_inode, hget]
    refine ⟨by rw [hu]; right; rfl, ?_, ?_, ?_, ?_⟩
    · rw [hu]
      constructor
      · intro hc; exact absurd hc (by simp)
      · rintro ⟨info, ch, hi, -⟩
        exact absurd hi (by simp)
    · intro info ch i hi
      exact absurd hi (by simp)
    · intro q _; rw [hu]
    · intro _; rw [hu]
  · rcases hent : info.entry with d | ch
    · have hu : FsFiles.unlink_inode s p n = (s, Except.error FsError.notFound) := by
        simp [FsFiles.unlink_inode, hget, hent]
      refine ⟨by rw [hu]; right; rfl, ?_, ?_, ?_, ?_⟩
      · rw [hu]
        constructor
        · intro hc; exact absurd hc (by simp)
        · rintro ⟨info2, ch, hi, hent2, -⟩
          cases hi
          rw [hent] at hent2
          exact absurd hent2 (by simp)
      · intro info2 ch i hi hent2
        cases hi
        rw [hent] at hent2
        intro hidx2
        exact absurd hent2 (by simp)
      · intro q _; rw [hu]
      · intro _; rw [hu]
    · rcases hidx : ch.findIdx? (fun c => c.2 == n) with _ | i
      · have hu : FsFiles.unlink_inode s p n = (s, Except.error FsError.notFound) := by
          simp [FsFiles.unlink_inode, hget, hent, hidx]
        refine ⟨by rw [hu]; right; rfl, ?_, ?_, ?_, ?_⟩
        · rw [hu]
          constructor
          · intro hc; exact absurd hc (by simp)
          · rintro ⟨info2, ch2, hi, hent2, c, hc, hcn⟩
            cases hi
            rw [hent] at hent2
            cases hent2
            have := List.findIdx?_eq_none_iff.mp hidx c hc
            simp [hcn] at this
        · intro info2 ch2 i hi hent2 hidx2
          cases hi
          rw [hent] at hent2
          cases hent2
          rw [hidx] at hidx2
          exact absurd hidx2 (by simp)
        · intro q _; rw [hu]
        · intro _; rw [hu]
      · obtain ⟨hilen, hip, -⟩ := List.findIdx?_eq_some_iff_getElem.mp hidx
        have hu : FsFiles.unlink_inode s p n =
            (Slab.set s p {info with entry := FsEntry.dir (swapRemove ch i)},
              Except.ok ()) := by
          simp [FsFiles.unlink_inode, hget, hent, hidx]
        refine ⟨by rw [hu]; left; rfl, ?_, ?_, ?_, ?_⟩
        · rw [hu]
          constructor
          · intro _
            exact ⟨info, ch, rfl, hent, ch[i], List.getElem_mem hilen,
              by simpa using hip⟩
          · intro _; rfl
        · intro info2 ch2 j hi hent2 hidx2
          cases hi
          rw [hent] at hent2
          cases hent2
          rw [hidx] at hidx2
          cases hidx2
          exact ⟨hu, swapRemove_perm ch i hilen⟩
        · intro q hq
          rw [hu]
          exact slabGet_set_ne _ (fun e => hq e.symm)
        · intro hc
          rw [hu] at hc
          exact absurd hc (by simp)

/-- Witness for C10 at a concrete state: root (slot 1) holds one child
`(2, "d")`; unlinking it succeeds with the swap-removed child list. -/
theorem unlink_rmdir_same_witness :
    FsFiles.unlink_inode
        ⟨[SlabEntry.occupied InodeInfo.empty,
          SlabEntry.occupied ⟨1, [47], 493, 1000, 100, FsEntry.dir [(2, [100])]⟩,
          SlabEntry.occupied ⟨1, [100], 493, 1000, 100, FsEntry.dir []⟩], 3⟩
        1 [100] =
      (Slab.set
          ⟨[SlabEntry.occupied InodeInfo.empty,
            SlabEntry.occupied ⟨1, [47], 493, 1000, 100, FsEntry.dir [(2, [100])]⟩,
            SlabEntry.occupied ⟨1, [100], 493, 1000, 100, FsEntry.dir []⟩], 3⟩
          1 ⟨1, [47], 493, 1000, 100, FsEntry.dir (swapRemove [(2, [100])] 0)⟩,
        Except.ok ()) ∧
    (swapRemove [(2, [100])] 0).Perm ([(2, [100])].eraseIdx 0) :=
  (unlink_rmdir_same
      ⟨[SlabEntry.occupied InodeInfo.empty,
        SlabEntry.occupied ⟨1, [47], 493, 1000, 100, FsEntry.dir [(2, [100])]⟩,
        SlabEntry.occupied ⟨1, [100], 493, 1000, 100, FsEntry.dir []⟩], 3⟩
      1 [100]).2.2.2.1
    ⟨1, [47], 493, 1000, 100, FsEntry.dir [(2, [100])]⟩ [(2, [100])] 0
    (by decide) rfl (by decide)

/-- C3 amended: create/mkdir append to the parent's child list
unconditionally.  On any successful `create` into a live directory
parent, the new child list is exactly the old one with `(new id, name)`
appended, and the number of children carrying that name grows by one —
so creating a name the parent already holds yields a duplicate. -/
theorem create_appends_child (s : Slab) (p : Nat) (n : List Nat)
    (mode uid gid : Nat) (info : InodeInfo) (ch : List (Nat × List Nat))
    (s2 : Slab) (ino : Nat)
    (hp : Slab.get s p = some info) (hch : info.entry = FsEntry.dir ch)
    (hcr : SlabFs.create s p n mode uid gid = some (s2, Except.ok ino)) :
    (∃ info2, Slab.get s2 p = some info2 ∧
      info2.entry = FsEntry.dir (ch ++ [(ino, n)])) ∧
    (ch ++ [(ino, n)]).countP (fun c => c.2 == n) =
      ch.countP (fun c => c.2 == n) + 1 := by
  rw [SlabFs.create] at hcr
  rcases hmk : InodeInfo.create n uid gid mode with e | infoNew
  · rw [hmk] at hcr
    simp at hcr
  rw [hmk] at hcr
  dsimp only at hcr
  rcases hins : s.insert infoNew with _ | ⟨ino1, s1⟩
  · rw [hins] at hcr
    simp at hcr
  rw [hins] at hcr
  dsimp only at hcr
  have hplen : p < s.entries.length := slabGet_lt hp
  have hget1 : Slab.get s1 p = some info := by
    rw [Slab.insert] at hins
    by_cases hn : s.next = s.entries.length
    · rw [if_pos hn] at hins
      cases hins
      rw [slabGet_push hplen]
      exact hp
    · rw [if_neg hn] at hins
      rcases hv : s.entries[s.next]? with _ | v
      · rw [hv] at hins; exact absurd hins (by simp)
      rcases v with vinfo | m
      · rw [hv] at hins; exact absurd hins (by simp)
      · rw [hv] at hins
        cases hins
        have hne : s.next ≠ p := by
          intro e
          have hpe : s.entries[p]? = some (SlabEntry.vacant m) := e ▸ hv
          rw [Slab.get, hpe] at hp
          exact absurd hp (by simp)
        rw [slabGet_mk_set_ne _ hne]
        exact hp
  rw [hget1] at hcr
  dsimp only at hcr
  rw [InodeInfo.add_child, hch] at hcr
  dsimp only at hcr
  simp only [Option.some.injEq, Prod.mk.injEq, Except.ok.injEq] at hcr
  obtain ⟨h1, h2⟩ := hcr
  subst h1
  subst h2
  have hlen1 : p < s1.entries.length := slabGet_lt hget1
  refine ⟨⟨{info with entry := FsEntry.dir (ch ++ [(ino1, n)])},
    ?_, rfl⟩, ?_⟩
  · exact slabGet_mk_set_self _ hlen1
  · simp [List.countP_append]

/-- Witness for C3 at a concrete state: a second create of name "d"
under the root (which already holds `(2, "d")`) appends `(3, "d")`,
producing two children with the same name. -/
theorem create_appends_child_witness :
    (∃ info2, Slab.get
        ⟨[SlabEntry.occupied InodeInfo.empty,
          SlabEntry.occupied
            ⟨1, [47], 493, 1000, 100, FsEntry.dir [(2, [100]), (3, [100])]⟩,
          SlabEntry.occupied ⟨1, [100], 493, 1000, 100, FsEntry.dir []⟩,
          SlabEntry.occupied ⟨1, [100], 420, 1000, 100, FsEntry.file []⟩], 4⟩
        1 = some info2 ∧
      info2.entry = FsEntry.dir ([(2, [100])] ++ [(3, [100])])) ∧
    (([(2, [100])] : List (Nat × List Nat)) ++ [(3, [100])]).countP
        (fun c : Nat × List Nat => c.2 == [100]) =
      ([(2, [100])] : List (Nat × List Nat)).countP
        (fun c : Nat × List Nat => c.2 == [100]) + 1 :=
  create_appends_child
    ⟨[SlabEntry.occupied InodeInfo.empty,
      SlabEntry.occupied ⟨1, [47], 493, 1000, 100, FsEntry.dir [(2, [100])]⟩,
      SlabEntry.occupied ⟨1, [100], 493, 1000, 100, FsEntry.dir []⟩], 3⟩
    1 [100] 33188 1000 100
    ⟨1, [47], 493, 1000, 100, FsEntry.dir [(2, [100])]⟩ [(2, [100])]
    ⟨[SlabEntry.occupied InodeInfo.empty,
      SlabEntry.occupied
        ⟨1, [47], 493, 1000, 100, FsEntry.dir [(2, [100]), (3, [100])]⟩,
      SlabEntry.occupied ⟨1, [100], 493, 1000, 100, FsEntry.dir []⟩,
      SlabEntry.occupied ⟨1, [100], 420, 1000, 100, FsEntry.file []⟩], 4⟩
    3 (by decide) rfl (by decide)

/-- C6 amended: when the requested parent is not a live directory and is
not the very slot the pool will hand to the new record (the free-list
head), `create` returns an error and the occupied-slot set is exactly as
before: either the record validation fails before any allocation, or the
just-inserted record is rolled back.  (When the parent equals the
allocated slot and the mode is a directory mode, create instead succeeds
and links the new directory as its own child — see the
counterexample.) -/
theorem create_rollback (s : Slab) (p : Nat) (n : List Nat) (mode uid gid : Nat)
    (hwf : s.next = s.entries.length ∨
      ∃ m, s.entries[s.next]? = some (SlabEntry.vacant m))
    (hpar : ∀ info, Slab.get s p = some info → info.entry.isDir = false)
    (hne : p ≠ s.next) :
    ∃ e s2, SlabFs.create s p n mode uid gid = some (s2, Except.error e) ∧
      ∀ i, Slab.isOccupied s2 i = Slab.isOccupied s i := by
  rw [SlabFs.create]
  rcases hmk : InodeInfo.create n uid gid mode with e | infoNew
  · exact ⟨e, s, rfl, fun i => rfl⟩
  dsimp only
  rcases hwf with hn | ⟨m, hv⟩
  · -- free list empty: the record is pushed at index s.next = length
    rw [Slab.insert, if_pos hn]
    dsimp only
    have hocc : (s.entries ++ [SlabEntry.occupied infoNew])[s.next]? =
        some (SlabEntry.occupied infoNew) := by
      rw [List.getElem?_append_right (Nat.le_of_eq hn.symm)]
      simp [hn]
    have hrm : Slab.remove ⟨s.entries ++ [SlabEntry.occupied infoNew], s.next + 1⟩
        s.next = some ⟨(s.entries ++ [SlabEntry.occupied infoNew]).set s.next
          (SlabEntry.vacant (s.next + 1)), s.next⟩ := by
      rw [Slab.remove]
      dsimp only
      rw [hocc]
    have hoccpt : ∀ i, Slab.isOccupied
        ⟨(s.entries ++ [SlabEntry.occupied infoNew]).set s.next
          (SlabEntry.vacant (s.next + 1)), s.next⟩ i = Slab.isOccupied s i := by
      intro i
      by_cases hi : i = s.next
      · subst hi
        have h1 : ((s.entries ++ [SlabEntry.occupied infoNew]).set s.next
            (SlabEntry.vacant (s.next + 1)))[s.next]? =
            some (SlabEntry.vacant (s.next + 1)) := by
          apply List.getElem?_set_self
          rw [List.length_append]
          simp only [List.length_cons, List.length_nil]
          omega
        have h2 : s.entries[s.next]? = none :=
          List.getElem?_eq_none (Nat.le_of_eq hn.symm)
        simp [Slab.isOccupied, Slab.get, h1, h2]
      · have h1 : ((s.entries ++ [SlabEntry.occupied infoNew]).set s.next
            (SlabEntry.vacant (s.next + 1)))[i]? =
            (s.entries ++ [SlabEntry.occupied infoNew])[i]? :=
          List.getElem?_set_ne (fun e => hi e.symm)
        by_cases hilt : i < s.entries.length
        · have h2 : (s.entries ++ [SlabEntry.occupied infoNew])[i]? = s.entries[i]? :=
            List.getElem?_append_left hilt
          simp [Slab.isOccupied, Slab.get, h1, h2]
        · have h2 : (s.entries ++ [SlabEntry.occupied infoNew])[i]? = none := by
            apply List.getElem?_eq_none
            rw [List.length_append]
            simp only [List.length_cons, List.length_nil]
            omega
          have h3 : s.entries[i]? = none := List.getElem?_eq_none (by omega)
          simp [Slab.isOccupied, Slab.get, h1, h2, h3]
    rcases hg : Slab.get s p with _ | info
    · have hg1 : Slab.get ⟨s.entries ++ [SlabEntry.occupied infoNew], s.next + 1⟩ p
          = none := by
        by_cases hp : p < s.entries.length
        · rw [slabGet_push hp]; exact hg
        · rw [Slab.get]
          have : (s.entries ++ [SlabEntry.occupied infoNew])[p]? = none := by
            apply List.getElem?_eq_none
            rw [List.length_append]
            simp only [List.length_cons, List.length_nil]
            omega
          rw [this]
      rw [hg1]
      dsimp only
      rw [hrm]
      dsimp only
      exact ⟨FsError.notFound, _, rfl, hoccpt⟩
    · have hplt : p < s.entries.length := slabGet_lt hg
      have hg1 : Slab.get ⟨s.entries ++ [SlabEntry.occupied infoNew], s.next + 1⟩ p
          = some info := by rw [slabGet_push hplt]; exact hg
      rw [hg1]
      dsimp only
      have hfile : ∃ d, info.entry = FsEntry.file d := by
        rcases he : info.entry with d | ch
        · exact ⟨d, rfl⟩
        · have := hpar info hg
          rw [he] at this
          exact absurd this (by simp [FsEntry.isDir])
      obtain ⟨d, hd⟩ := hfile
      rw [InodeInfo.add_child, hd]
      dsimp only
      rw [hrm]
      dsimp only
      exact ⟨FsError.notFound, _, rfl, hoccpt⟩
  · -- free list head is a vacant slot
    have hnlt : s.next < s.entries.length := by
      by_contra hc
      rw [List.getElem?_eq_none (by omega)] at hv
      exact absurd hv (by simp)
    have hn2 : s.next ≠ s.entries.length := by omega
    rw [Slab.insert, if_neg hn2, hv]
    dsimp only
    have hocc : (s.entries.set s.next (SlabEntry.occupied infoNew))[s.next]? =
        some (SlabEntry.occupied infoNew) := List.getElem?_set_self hnlt
    have hrm : Slab.remove ⟨s.entries.set s.next (SlabEntry.occupied infoNew), m⟩
        s.next = some ⟨(s.entries.set s.next (SlabEntry.occupied infoNew)).set
          s.next (SlabEntry.vacant m), s.next⟩ := by
      rw [Slab.remove]
      dsimp only
      rw [hocc]
    have hoccpt : ∀ i, Slab.isOccupied
        ⟨(s.entries.set s.next (SlabEntry.occupied infoNew)).set s.next
          (SlabEntry.vacant m), s.next⟩ i = Slab.isOccupied s i := by
      intro i
      by_cases hi : i = s.next
      · subst hi
        have h1 : ((s.entries.set s.next (SlabEntry.occupied infoNew)).set s.next
            (SlabEntry.vacant m))[s.next]? = some (SlabEntry.vacant m) := by
          apply List.getElem?_set_self
          rw [List.length_set]
          exact hnlt
        have h1b : (s.entries.set s.next (SlabEntry.vacant m))[s.next]? =
            some (SlabEntry.vacant m) := List.getElem?_set_self hnlt
        simp [Slab.isOccupied, Slab.get, h1, h1b, hv]
      · have h1 : ((s.entries.set s.next (SlabEntry.occupied infoNew)).set s.next
            (SlabEntry.vacant m))[i]? = s.entries[i]? := by
          rw [List.getElem?_set_ne (fun e => hi e.symm),
            List.getElem?_set_ne (fun e => hi e.symm)]
        have h1b : (s.entries.set s.next (SlabEntry.vacant m))[i]? = s.entries[i]? :=
          List.getElem?_set_ne (fun e => hi e.symm)
        simp [Slab.isOccupied, Slab.get, h1, h1b]
    have hnp : s.next ≠ p := fun e => hne e.symm
    rcases hg : Slab.get s p with _ | info
    · have hg1 : Slab.get ⟨s.entries.set s.next (SlabEntry.occupied infoNew), m⟩ p
          = none := by
        rw [slabGet_mk_set_ne _ hnp]
        exact hg
      rw [hg1]
      dsimp only
      rw [hrm]
      dsimp only
      exact ⟨FsError.notFound, _, rfl, hoccpt⟩
    · have hg1 : Slab.get ⟨s.entries.set s.next (SlabEntry.occupied infoNew), m⟩ p
          = some info := by
        rw [slabGet_mk_set_ne _ hnp]
        exact hg
      rw [hg1]
      dsimp only
      have hfile : ∃ d, info.entry = FsEntry.file d := by
        rcases he : info.entry with d | ch
        · exact ⟨d, rfl⟩
        · have := hpar info hg
          rw [he] at this
          exact absurd this (by simp [FsEntry.isDir])
      obtain ⟨d, hd⟩ := hfile
      rw [InodeInfo.add_child, hd]
      dsimp only
      rw [hrm]
      dsimp only
      exact ⟨FsError.notFound, _, rfl, hoccpt⟩

/-- Witness for C6: parent 5 does not resolve in the fresh engine and is
not the free-list head (2), so create fails and no slot occupancy
changes. -/
theorem create_rollback_witness :
    ∃ e s2, SlabFs.create SlabFs.new 5 [102] 33188 1000 100 =
        some (s2, Except.error e) ∧
      ∀ i, Slab.isOccupied s2 i = Slab.isOccupied SlabFs.new i :=
  create_rollback SlabFs.new 5 [102] 33188 1000 100
    (Or.inl (by decide))
    (fun info h => by
      rw [show Slab.get SlabFs.new 5 = none from by decide] at h
      exact absurd h (by simp))
    (by decide)

/-- C7 amended: when `setattr` on a live record returns an error, the
record's payload (file contents / child list) is unchanged, but the
fields requested before the failing one are already applied: uid and gid
take effect per their flags, and the error is either `InvalidInput` from
a bad mode (permissions then unchanged) or `NotFound` from a size change
on a non-file (permissions then already updated when a valid mode was
also requested). -/
theorem setattr_error_behavior (s : Slab) (ino : Nat)
    (auid agid amode asize : Nat) (vuid vgid vmode vsize : Bool)
    (info : InodeInfo) (s2 : Slab) (e : FsError)
    (hget : Slab.get s ino = some info)
    (hrun : SlabFs.setattr s ino auid agid amode asize vuid vgid vmode vsize =
      (s2, Except.error e)) :
    ∃ info2, Slab.get s2 ino = some info2 ∧
      info2.entry = info.entry ∧
      info2.uid = (if vuid then auid else info.uid) ∧
      info2.gid = (if vgid then agid else info.gid) ∧
      ((e = FsError.invalidInput ∧ vmode = true ∧ info2.perm = info.perm) ∨
       (e = FsError.notFound ∧ vsize = true ∧
         (vmode = false → info2.perm = info.perm) ∧
         (vmode = true → FsPerm.try_from amode = Except.ok info2.perm))) := by
  have hlen := slabGet_lt hget
  have hinv : ∀ e1, FsPerm.try_from amode = Except.error e1 →
      e1 = FsError.invalidInput := by
    intro e1 h
    rw [FsPerm.try_from] at h
    split at h
    · exact absurd h (by simp)
    · cases h; rfl
  rcases hent : info.entry with d | ch <;>
    cases vuid <;> cases vgid <;> cases vmode <;> cases vsize <;>
      rcases htf : FsPerm.try_from amode with e1 | pm <;>
        (try simp [SlabFs.setattr, hget, htf, hent] at hrun) <;>
          (try (obtain ⟨h1, h2⟩ := hrun
                subst h1
                subst h2
                refine ⟨_, slabGet_set_self _ hlen, ?_, ?_, ?_, ?_⟩ <;>
                  simp [hent, htf, hinv e1 htf])) <;>
          (try (obtain ⟨h1, h2⟩ := hrun
                subst h1
                subst h2
                refine ⟨_, slabGet_set_self _ hlen, ?_, ?_, ?_, ?_⟩ <;>
                  simp [hent, htf]))

/-- Witness for C7: requesting uid 42 together with the invalid mode
0o7777 on the root fails with `InvalidInput`, yet the uid is changed. -/
theorem setattr_error_behavior_witness :
    ∃ info2, Slab.get
        (⟨[SlabEntry.occupied InodeInfo.empty,
           SlabEntry.occupied ⟨1, [47], 493, 42, 100, FsEntry.dir []⟩],
          2⟩ : Slab) 1 = some info2 ∧
      info2.entry = (InodeInfo.dirOf [47]).entry ∧
      info2.uid = (if true then 42 else (InodeInfo.dirOf [47]).uid) ∧
      info2.gid = (if false then 0 else (InodeInfo.dirOf [47]).gid) ∧
      ((FsError.invalidInput = FsError.invalidInput ∧ true = true ∧
          info2.perm = (InodeInfo.dirOf [47]).perm) ∨
       (FsError.invalidInput = FsError.notFound ∧ false = true ∧
         (true = false → info2.perm = (InodeInfo.dirOf [47]).perm) ∧
         (true = true → FsPerm.try_from 4095 = Except.ok info2.perm))) :=
  setattr_error_behavior SlabFs.new 1 42 0 4095 0 true false true false
    (InodeInfo.dirOf [47])
    ⟨[SlabEntry.occupied InodeInfo.empty,
      SlabEntry.occupied ⟨1, [47], 493, 42, 100, FsEntry.dir []⟩], 2⟩
    FsError.invalidInput (by decide) (by decide)

/-- C9: round trip.  For every live file record and byte sequence `B`
(of `usize`-representable length), `write(id, 0, B)` reports all of `B`
written and a following `read(id, 0, len B)` returns exactly `B`. -/
theorem write_then_read_roundtrip (junk : Nat → Nat) (s : Slab) (ino : Nat)
    (info : InodeInfo) (d B : List Nat)
    (hget : Slab.get s ino = some info) (hfile : info.entry = FsEntry.file d)
    (hB : B.length ≤ usizeMax) :
    ∃ s2, SlabFs.write junk s ino B 0 = (s2, Except.ok B.length) ∧
      SlabFs.read s2 ino B.length 0 = (s2, Except.ok B) := by
  have hlen := slabGet_lt hget
  have hwr : writeResult junk d B 0 = B := by
    simp [writeResult]
  have hw : SlabFs.write junk s ino B 0 =
      (s.set ino {info with entry := FsEntry.file B}, Except.ok B.length) := by
    rw [SlabFs.write, hget]
    dsimp only
    rw [hfile]
    dsimp only
    rw [FileWriter.write_at_volatile, if_pos (by simpa using hB)]
    dsimp only
    rw [hwr]
  have hr : SlabFs.read (s.set ino {info with entry := FsEntry.file B})
      ino B.length 0 =
      (s.set ino {info with entry := FsEntry.file B}, Except.ok B) := by
    rw [SlabFs.read, slabGet_set_self _ hlen]
    dsimp only
    rw [FileReader.read_at_volatile, if_pos (by simpa using hB),
      if_pos (by simp)]
    simp
  exact ⟨_, hw, hr⟩

/-- Witness for C9 on a concrete empty file at slot 2 and the bytes
"hi". -/
theorem write_then_read_roundtrip_witness :
    ([104, 105] : List Nat).length ≤ usizeMax ∧
    ∃ s2, SlabFs.write junk0
        ⟨[SlabEntry.occupied InodeInfo.empty,
      SlabEntry.occupied (InodeInfo.dirOf [47]),
      SlabEntry.occupied ⟨1, [102], 420, 1000, 100, FsEntry.file []⟩], 3⟩
        2 [104, 105] 0 = (s2, Except.ok ([104, 105] : List Nat).length) ∧
      SlabFs.read s2 2 ([104, 105] : List Nat).length 0 =
        (s2, Except.ok [104, 105]) :=
  ⟨by decide,
   write_then_read_roundtrip junk0
     ⟨[SlabEntry.occupied InodeInfo.empty,
      SlabEntry.occupied (InodeInfo.dirOf [47]),
      SlabEntry.occupied ⟨1, [102], 420, 1000, 100, FsEntry.file []⟩], 3⟩
     2 ⟨1, [102], 420, 1000, 100, FsEntry.file []⟩ [] [104, 105]
     (by decide) rfl (by decide)⟩

theorem refStep_none (l : List RefOp) : l.foldl refStep none = none := by
  induction l with
  | nil => rfl
  | cons op rest ih =>
    have : refStep none op = none := by cases op <;> rfl
    rw [List.foldl_cons, this, ih]

theorem refRun_general (ops : List RefOp) : ∀ (r : Nat), 0 < r →
    r + lookCount ops < u64Mod →
    (∀ c, RefOp.forget c ∈ ops → c < u64Mod) →
    ((ops.foldl refStep (some r) = none ↔
      ∃ k, r + lookCount (ops.take k) ≤ forgCount (ops.take k)) ∧
    (ops.foldl refStep (some r) = none ∨
      ops.foldl refStep (some r) = some (r + lookCount ops - forgCount ops))) := by
  induction ops with
  | nil =>
    intro r hr _ _
    constructor
    · simp only [List.foldl_nil]
      constructor
      · intro h; exact absurd h (by simp)
      · rintro ⟨k, hk⟩
        simp [List.take_nil, lookCount, forgCount] at hk
        omega
    · right
      simp [lookCount, forgCount]
  | cons op rest ih =>
    intro r hr hbound hc
    cases op with
    | lookup =>
      have hstep : refStep (some r) RefOp.lookup = some (r + 1) := by
        have hlt : r + 1 < u64Mod := by
          have : lookCount (RefOp.lookup :: rest) = lookCount rest + 1 := rfl
          omega
        simp [refStep, InodeInfo.refinc, Nat.mod_eq_of_lt hlt]
      have hb2 : (r + 1) + lookCount rest < u64Mod := by
        have : lookCount (RefOp.lookup :: rest) = lookCount rest + 1 := rfl
        omega
      have hc2 : ∀ c, RefOp.forget c ∈ rest → c < u64Mod :=
        fun c hm => hc c (List.mem_cons_of_mem _ hm)
      obtain ⟨ih1, ih2⟩ := ih (r + 1) (by omega) hb2 hc2
      rw [List.foldl_cons, hstep]
      have hshift : (∃ k, r + lookCount ((RefOp.lookup :: rest).take k) ≤
          forgCount ((RefOp.lookup :: rest).take k)) ↔
          (∃ j, (r + 1) + lookCount (rest.take j) ≤ forgCount (rest.take j)) := by
        constructor
        · rintro ⟨k, hk⟩
          cases k with
          | zero =>
            simp [lookCount, forgCount] at hk
            omega
          | succ j =>
            refine ⟨j, ?_⟩
            rw [List.take_succ_cons] at hk
            have h1 : lookCount (RefOp.lookup :: rest.take j) =
              lookCount (rest.take j) + 1 := rfl
            have h2 : forgCount (RefOp.lookup :: rest.take j) =
              forgCount (rest.take j) := rfl
            omega
        · rintro ⟨j, hj⟩
          refine ⟨j + 1, ?_⟩
          rw [List.take_succ_cons]
          have h1 : lookCount (RefOp.lookup :: rest.take j) =
            lookCount (rest.take j) + 1 := rfl
          have h2 : forgCount (RefOp.lookup :: rest.take j) =
            forgCount (rest.take j) := rfl
          omega
      constructor
      · rw [ih1]
        exact hshift.symm
      · rcases ih2 with h | h
        · left; exact h
        · right
          rw [h]
          have h1 : lookCount (RefOp.lookup :: rest) = lookCount rest + 1 := rfl
          have h2 : forgCount (RefOp.lookup :: rest) = forgCount rest := rfl
          rw [h1, h2]
          simp only [Option.some.injEq]
          clear hshift ih1
          omega
    | forget c =>
      have hcu : c < u64Mod := hc c (List.mem_cons_self _ _)
      by_cases hrc : r ≤ c
      · have hstep : refStep (some r) (RefOp.forget c) = none := by
          simp [refStep, InodeInfo.refsub, hrc]
        rw [List.foldl_cons, hstep, refStep_none]
        constructor
        · constructor
          · intro _
            refine ⟨1, ?_⟩
            have h1 : (RefOp.forget c :: rest).take 1 = [RefOp.forget c] := by
              simp [List.take_succ_cons]
            rw [h1]
            have h2 : lookCount [RefOp.forget c] = 0 := rfl
            have h3 : forgCount [RefOp.forget c] = c := by
              simp [forgCount]
            omega
          · intro _; rfl
        · left; rfl
      · push_neg at hrc
        have hstep : refStep (some r) (RefOp.forget c) = some (r - c) := by
          have hrlt : r < u64Mod := by omega
          have hmod : (r + (u64Mod - c % u64Mod)) % u64Mod = r - c := by
            rw [Nat.mod_eq_of_lt hcu]
            simp only [u64Mod] at hcu hrlt ⊢
            omega
          simp [refStep, InodeInfo.refsub, Nat.not_le.mpr hrc, hmod]
        have hb2 : (r - c) + lookCount rest < u64Mod := by
          have : lookCount (RefOp.forget c :: rest) = lookCount rest := rfl
          omega
        have hc2 : ∀ c2, RefOp.forget c2 ∈ rest → c2 < u64Mod :=
          fun c2 hm => hc c2 (List.mem_cons_of_mem _ hm)
        obtain ⟨ih1, ih2⟩ := ih (r - c) (by omega) hb2 hc2
        rw [List.foldl_cons, hstep]
        have hshift : (∃ k, r + lookCount ((RefOp.forget c :: rest).take k) ≤
            forgCount ((RefOp.forget c :: rest).take k)) ↔
            (∃ j, (r - c) + lookCount (rest.take j) ≤ forgCount (rest.take j)) := by
          constructor
          · rintro ⟨k, hk⟩
            cases k with
            | zero =>
              simp [lookCount, forgCount] at hk
              omega
            | succ j =>
              refine ⟨j, ?_⟩
              rw [List.take_succ_cons] at hk
              have h1 : lookCount (RefOp.forget c :: rest.take j) =
                lookCount (rest.take j) := rfl
              have h2 : forgCount (RefOp.forget c :: rest.take j) =
                forgCount (rest.take j) + c := rfl
              omega
          · rintro ⟨j, hj⟩
            refine ⟨j + 1, ?_⟩
            rw [List.take_succ_cons]
            have h1 : lookCount (RefOp.forget c :: rest.take j) =
              lookCount (rest.take j) := rfl
            have h2 : forgCount (RefOp.forget c :: rest.take j) =
              forgCount (rest.take j) + c := rfl
            omega
        constructor
        · rw [ih1]
          exact hshift.symm
        · rcases ih2 with h | h
          · left; exact h
          · right
            rw [h]
            have h1 : lookCount (RefOp.forget c :: rest) = lookCount rest := rfl
            have h2 : forgCount (RefOp.forget c :: rest) = forgCount rest + c := rfl
            rw [h1, h2]
            simp only [Option.some.injEq]
            clear hshift ih1
            omega

/-- C5: for every sequence of lookup (+1 each) and forget (-count each)
requests against one identifier — fewer than `2^64 - 1` lookups, counts
in `u64` range — the record (created with count 1) is removed if and
only if some prefix's cumulative forgotten count reaches or exceeds its
cumulative looked-up count including the initial 1; while it has not
been removed, it is live with count `1 + lookups - forgotten`. -/
theorem refcount_removal (ops : List RefOp)
    (hl : lookCount ops < u64Mod - 1)
    (hc : ∀ c, RefOp.forget c ∈ ops → c < u64Mod) :
    (refRun ops = none ↔
      ∃ k, 1 + lookCount (ops.take k) ≤ forgCount (ops.take k)) ∧
    (refRun ops = none ∨
      refRun ops = some (1 + lookCount ops - forgCount ops)) := by
  have h := refRun_general ops 1 (by omega)
    (by have : (0:Nat) < u64Mod := by simp [u64Mod]
        omega) hc
  exact h

/-- Witness for C5: one lookup then a forget of 2 removes the record
(2 >= 1 + 1), matching the crossing-prefix characterization. -/
theorem refcount_removal_witness :
    lookCount [RefOp.lookup, RefOp.forget 2] < u64Mod - 1 ∧
    ((refRun [RefOp.lookup, RefOp.forget 2] = none ↔
      ∃ k, 1 + lookCount ([RefOp.lookup, RefOp.forget 2].take k) ≤
        forgCount ([RefOp.lookup, RefOp.forget 2].take k)) ∧
    (refRun [RefOp.lookup, RefOp.forget 2] = none ∨
      refRun [RefOp.lookup, RefOp.forget 2] =
        some (1 + lookCount [RefOp.lookup, RefOp.forget 2] -
          forgCount [RefOp.lookup, RefOp.forget 2]))) :=
  ⟨by decide,
   refcount_removal [RefOp.lookup, RefOp.forget 2] (by decide)
     (by
       intro c hc
       simp only [List.mem_cons, List.not_mem_nil, or_false] at hc
       rcases hc with h | h
       · exact absurd h (by simp)
       · injection h with h2
         subst h2
         decide)⟩

theorem vacantLinks_set {l : List SlabEntry} {i : Nat} {v : InodeInfo}
    (h : ∀ (j m : Nat), l[j]? = some (SlabEntry.vacant m) → m ≠ 1) :
    ∀ (j m : Nat), (l.set i (SlabEntry.occupied v))[j]? =
      some (SlabEntry.vacant m) → m ≠ 1 := by
  intro j m hj
  by_cases hij : i = j
  · subst hij
    by_cases hlen : i < l.length
    · rw [List.getElem?_set_self hlen] at hj
      exact absurd hj (by simp)
    · rw [List.getElem?_eq_none (by simp; omega)] at hj
      exact absurd hj (by simp)
  · rw [List.getElem?_set_ne hij] at hj
    exact h j m hj

theorem rootInv_set_ne {s : Slab} (h : RootInv s) {i : Nat} (hi : i ≠ 1)
    (v : InodeInfo) : RootInv (s.set i v) := by
  obtain ⟨⟨rinfo, hr, hd⟩, hnx, hvac⟩ := h
  refine ⟨⟨rinfo, ?_, hd⟩, hnx, ?_⟩
  · rw [slabGet_set_ne v hi]
    exact hr
  · exact vacantLinks_set hvac

theorem rootInv_set_root {s : Slab} (h : RootInv s) {v : InodeInfo}
    (hv : v.entry.isDir = true) : RootInv (s.set 1 v) := by
  obtain ⟨⟨rinfo, hr, hd⟩, hnx, hvac⟩ := h
  refine ⟨⟨v, ?_, hv⟩, hnx, ?_⟩
  · exact slabGet_set_self v (slabGet_lt hr)
  · exact vacantLinks_set hvac

theorem rootInv_insert {s : Slab} (h : RootInv s) {v : InodeInfo} {ino : Nat}
    {s1 : Slab} (hins : s.insert v = some (ino, s1)) :
    RootInv s1 ∧ ino ≠ 1 ∧ Slab.get s1 1 = Slab.get s 1 := by
  obtain ⟨⟨rinfo, hr, hd⟩, hnx, hvac⟩ := h
  have hlen1 : 1 < s.entries.length := slabGet_lt hr
  rw [Slab.insert] at hins
  by_cases hn : s.next = s.entries.length
  · rw [if_pos hn] at hins
    cases hins
    have hino : s.next ≠ 1 := hnx
    have hget1 : Slab.get ⟨s.entries ++ [SlabEntry.occupied v], s.next + 1⟩ 1 =
        Slab.get s 1 := slabGet_push hlen1
    refine ⟨⟨⟨rinfo, by rw [hget1]; exact hr, hd⟩,
      by show s.next + 1 ≠ 1; omega, ?_⟩, hino, hget1⟩
    · intro j m hj
      by_cases hjl : j < s.entries.length
      · rw [List.getElem?_append_left hjl] at hj
        exact hvac j m hj
      · by_cases hje : j = s.entries.length
        · subst hje
          rw [List.getElem?_append_right (Nat.le_refl _)] at hj
          simp at hj
        · rw [List.getElem?_eq_none (by simp; omega)] at hj
          exact absurd hj (by simp)
  · rw [if_neg hn] at hins
    rcases hv : s.entries[s.next]? with _ | ve
    · rw [hv] at hins
      exact absurd hins (by simp)
    rcases ve with vinfo | m0
    · rw [hv] at hins
      exact absurd hins (by simp)
    rw [hv] at hins
    cases hins
    have hm0 : m0 ≠ 1 := hvac s.next m0 hv
    have hget1 : Slab.get ⟨s.entries.set s.next (SlabEntry.occupied v), m0⟩ 1 =
        Slab.get s 1 := by
      rw [slabGet_mk_set_ne _ hnx]
    refine ⟨⟨⟨rinfo, by rw [hget1]; exact hr, hd⟩, hm0, vacantLinks_set hvac⟩,
      hnx, hget1⟩

theorem rootInv_remove {s : Slab} (h : RootInv s) {i : Nat} {s1 : Slab}
    (hi : i ≠ 1) (hrm : s.remove i = some s1) : RootInv s1 := by
  obtain ⟨⟨rinfo, hr, hd⟩, hnx, hvac⟩ := h
  rw [Slab.remove] at hrm
  rcases he : s.entries[i]? with _ | e
  · rw [he] at hrm
    exact absurd hrm (by simp)
  rcases e with einfo | m0
  swap
  · rw [he] at hrm
    exact absurd hrm (by simp)
  rw [he] at hrm
  cases hrm
  refine ⟨⟨rinfo, ?_, hd⟩, hi, ?_⟩
  · rw [Slab.get] at hr ⊢
    dsimp only
    rw [List.getElem?_set_ne hi]
    exact hr
  · intro j m hj
    by_cases hij : i = j
    · subst hij
      by_cases hlen : i < s.entries.length
      · rw [List.getElem?_set_self hlen] at hj
        simp only [Option.some.injEq, SlabEntry.vacant.injEq] at hj
        rw [← hj]
        exact hnx
      · rw [List.getElem?_eq_none (by simp; omega)] at hj
        exact absurd hj (by simp)
    · rw [List.getElem?_set_ne hij] at hj
      exact hvac j m hj

theorem create_rootInv {s : Slab} {p : Nat} {n : List Nat} {m u g : Nat}
    {s2 : Slab} {r : Except FsError Nat} (h : RootInv s)
    (hcr : SlabFs.create s p n m u g = some (s2, r)) : RootInv s2 := by
  rw [SlabFs.create] at hcr
  rcases hmk : InodeInfo.create n u g m with e | info
  · rw [hmk] at hcr
    simp only [Option.some.injEq, Prod.mk.injEq] at hcr
    rw [← hcr.1]
    exact h
  rw [hmk] at hcr
  dsimp only at hcr
  rcases hins : s.insert info with _ | ⟨ino, s1⟩
  · rw [hins] at hcr
    exact absurd hcr (by simp)
  rw [hins] at hcr
  dsimp only at hcr
  obtain ⟨hinv1, hino1, hget1⟩ := rootInv_insert h hins
  rcases hg : Slab.get s1 p with _ | pinfo
  · rw [hg] at hcr
    dsimp only at hcr
    rcases hrm : s1.remove ino with _ | s3
    · rw [hrm] at hcr
      exact absurd hcr (by simp)
    rw [hrm] at hcr
    simp only [Option.some.injEq, Prod.mk.injEq] at hcr
    rw [← hcr.1]
    exact rootInv_remove hinv1 hino1 hrm
  rw [hg] at hcr
  dsimp only at hcr
  rcases hac : pinfo.add_child ino n with e | pinfo2
  · rw [hac] at hcr
    dsimp only at hcr
    rcases hrm : s1.remove ino with _ | s3
    · rw [hrm] at hcr
      exact absurd hcr (by simp)
    rw [hrm] at hcr
    simp only [Option.some.injEq, Prod.mk.injEq] at hcr
    rw [← hcr.1]
    exact rootInv_remove hinv1 hino1 hrm
  rw [hac] at hcr
  simp only [Option.some.injEq, Prod.mk.injEq] at hcr
  rw [← hcr.1]
  by_cases hp : p = 1
  · subst hp
    obtain ⟨⟨rinfo, hr, hd⟩, -, -⟩ := h
    have hpr : pinfo = rinfo := by
      rw [hget1, hr] at hg
      exact (Option.some.inj hg).symm
    subst hpr
    rcases hent : pinfo.entry with d | ch
    · rw [hent] at hd
      exact absurd hd (by simp [FsEntry.isDir])
    · rw [InodeInfo.add_child, hent] at hac
      dsimp only at hac
      cases hac
      exact rootInv_set_root hinv1 (by simp [FsEntry.isDir])
  · exact rootInv_set_ne hinv1 hp pinfo2

theorem forget_rootInv {s : Slab} {i c : Nat} {s1 : Slab} (h : RootInv s)
    (hi : i ≠ 1) (hf : SlabFs.forget s i c = some s1) : RootInv s1 := by
  rw [SlabFs.forget] at hf
  rcases hg : Slab.get s i with _ | info
  · rw [hg] at hf
    exact absurd hf (by simp)
  rw [hg] at hf
  dsimp only at hf
  have hinv2 : RootInv (s.set i (info.refsub c).1) := rootInv_set_ne h hi _
  by_cases hd : (info.refsub c).2 = true
  · rw [if_pos hd] at hf
    exact rootInv_remove hinv2 hi hf
  · rw [if_neg hd] at hf
    cases hf
    exact hinv2

theorem batch_rootInv : ∀ (l : List (Nat × Nat)) (s s1 : Slab), RootInv s →
    (∀ r ∈ l, r.1 ≠ 1) → SlabFs.batch_forget s l = some s1 → RootInv s1 := by
  intro l
  induction l with
  | nil =>
    intro s s1 h _ hb
    rw [SlabFs.batch_forget] at hb
    simp at hb
    rw [← hb]
    exact h
  | cons r rest ih =>
    intro s s1 h hr hb
    rw [SlabFs.batch_forget, List.foldlM_cons] at hb
    rcases hf : SlabFs.forget s r.1 r.2 with _ | s2
    · rw [hf] at hb
      exact absurd hb (by simp)
    rw [hf] at hb
    have h2 : RootInv s2 :=
      forget_rootInv h (hr r (List.mem_cons_self _ _)) hf
    exact ih s2 s1 h2 (fun q hq => hr q (List.mem_cons_of_mem _ hq)) hb

theorem lookup_rootInv {s : Slab} {p : Nat} {n : List Nat} {s1 : Slab}
    {r : Except FsError Nat} (h : RootInv s)
    (hl : SlabFs.lookup s p n = some (s1, r)) : RootInv s1 := by
  rw [SlabFs.lookup] at hl
  rcases hg : Slab.get s p with _ | pinfo
  · rw [hg] at hl
    simp only [Option.some.injEq, Prod.mk.injEq] at hl
    rw [← hl.1]
    exact h
  rw [hg] at hl
  dsimp only at hl
  rcases hch : pinfo.children with e | ch
  · rw [hch] at hl
    simp only [Option.some.injEq, Prod.mk.injEq] at hl
    rw [← hl.1]
    exact h
  rw [hch] at hl
  dsimp only at hl
  rcases hf : ch.find? (fun c => c.2 == n) with _ | c
  · rw [hf] at hl
    simp only [Option.some.injEq, Prod.mk.injEq] at hl
    rw [← hl.1]
    exact h
  rw [hf] at hl
  dsimp only at hl
  rcases hgc : Slab.get s c.1 with _ | cinfo
  · rw [hgc] at hl
    exact absurd hl (by simp)
  rw [hgc] at hl
  dsimp only at hl
  have hset : RootInv (s.set c.1 cinfo.refinc.1) := by
    by_cases hc1 : c.1 = 1
    · rw [hc1] at hgc ⊢
      rcases id h with ⟨⟨rinfo, hr, hd⟩, -, -⟩
      have hce : cinfo = rinfo := by
        rw [hr] at hgc
        exact (Option.some.inj hgc).symm
      subst hce
      exact rootInv_set_root h (by simpa [InodeInfo.refinc] using hd)
    · exact rootInv_set_ne h hc1 _
  by_cases hov : cinfo.refinc.2 = true
  · rw [if_pos hov] at hl
    simp only [Option.some.injEq, Prod.mk.injEq] at hl
    rw [← hl.1]
    exact hset
  · rw [if_neg hov] at hl
    simp only [Option.some.injEq, Prod.mk.injEq] at hl
    rw [← hl.1]
    exact hset

theorem unlink_rootInv {s : Slab} {p : Nat} {n : List Nat} (h : RootInv s) :
    RootInv (FsFiles.unlink_inode s p n).1 := by
  rw [FsFiles.unlink_inode]
  rcases hg : Slab.get s p with _ | pinfo
  · exact h
  dsimp only
  rcases hent : pinfo.entry with d | ch
  · exact h
  dsimp only
  rcases hidx : ch.findIdx? (fun c => c.2 == n) with _ | i
  · rw [hidx]
    exact h
  rw [hidx]
  dsimp only
  by_cases hp : p = 1
  · subst hp
    exact rootInv_set_root h (by simp [FsEntry.isDir])
  · exact rootInv_set_ne h hp _

theorem write_rootInv {junk : Nat → Nat} {s : Slab} {i : Nat} {b : List Nat}
    {o : Nat} (h : RootInv s) :
    RootInv (SlabFs.write junk s i b o).1 := by
  rw [SlabFs.write]
  rcases hg : Slab.get s i with _ | info
  · exact h
  dsimp only
  rcases hent : info.entry with d | ch
  swap
  · exact h
  dsimp only
  rcases hw : FileWriter.write_at_volatile junk d b o with e | ⟨d2, cnt⟩
  · exact h
  dsimp only
  by_cases hp : i = 1
  · subst hp
    rcases id h with ⟨⟨rinfo, hr, hd⟩, -, -⟩
    have hir : info = rinfo := by
      rw [hr] at hg
      exact (Option.some.inj hg).symm
    subst hir
    rw [hent] at hd
    exact absurd hd (by simp [FsEntry.isDir])
  · exact rootInv_set_ne h hp _

theorem setattr_rootInv {s : Slab} {ino auid agid amode asize : Nat}
    {vuid vgid vmode vsize : Bool} (h : RootInv s) :
    RootInv (SlabFs.setattr s ino auid agid amode asize
      vuid vgid vmode vsize).1 := by
  rcases hg : Slab.get s ino with _ | info
  · simp only [SlabFs.setattr, hg]
    exact h
  by_cases hp : ino = 1
  · subst hp
    rcases id h with ⟨⟨rinfo, hr, hd⟩, -, -⟩
    have hir : info = rinfo := by
      rw [hr] at hg
      exact (Option.some.inj hg).symm
    subst hir
    rcases hent : info.entry with d | ch
    · rw [hent] at hd
      exact absurd hd (by simp [FsEntry.isDir])
    cases vuid <;> cases vgid <;> cases vmode <;> cases vsize <;>
      rcases htf : FsPerm.try_from amode with e1 | pm <;>
        simp only [SlabFs.setattr, hg, htf, hent, Bool.false_eq_true, if_true,
          if_false, ite_true, ite_false, reduceIte] <;>
      first
        | exact h
        | exact rootInv_set_root h (by simp [FsEntry.isDir, hent])
  · rcases h2 : SlabFs.setattr s ino auid agid amode asize
        vuid vgid vmode vsize with ⟨s2, r⟩
    have : s2 = s ∨ ∃ j, s2 = s.set ino j := by
      cases vuid <;> cases vgid <;> cases vmode <;> cases vsize <;>
        rcases htf : FsPerm.try_from amode with e1 | pm <;>
          rcases hent : info.entry with d | ch <;>
            simp only [SlabFs.setattr, hg, htf, hent, Bool.false_eq_true,
              if_true, if_false, ite_true, ite_false, reduceIte,
              Prod.mk.injEq] at h2 <;>
        first
          | exact Or.inl h2.1.symm
          | exact Or.inr ⟨_, h2.1.symm⟩
    rcases this with he | ⟨j, he⟩
    · rw [he]
      exact h
    · rw [he]
      exact rootInv_set_ne h hp _

theorem step_rootInv {junk : Nat → Nat} {op : FsOp} {s s1 : Slab}
    (h : RootInv s) (hop : op.touchesRoot = false)
    (hs : step junk s op = some s1) : RootInv s1 := by
  cases op with
  | create p n m u g =>
    rw [step] at hs
    rcases hc : SlabFs.create s p n m u g with _ | ⟨s2, r⟩
    · rw [hc] at hs
      exact absurd hs (by simp)
    · rw [hc] at hs
      simp only [Option.map_some', Option.some.injEq] at hs
      rw [← hs]
      exact create_rootInv h hc
  | mkdir p n m u g =>
    rw [step] at hs
    rw [SlabFs.mkdir] at hs
    rcases hc : SlabFs.create s p n (m ||| sIFDIR) u g with _ | ⟨s2, r⟩
    · rw [hc] at hs
      exact absurd hs (by simp)
    · rw [hc] at hs
      simp only [Option.map_some', Option.some.injEq] at hs
      rw [← hs]
      exact create_rootInv h hc
  | lookup p n =>
    rw [step] at hs
    rcases hc : SlabFs.lookup s p n with _ | ⟨s2, r⟩
    · rw [hc] at hs
      exact absurd hs (by simp)
    · rw [hc] at hs
      simp only [Option.map_some', Option.some.injEq] at hs
      rw [← hs]
      exact lookup_rootInv h hc
  | unlink p n =>
    rw [step] at hs
    simp only [Option.some.injEq] at hs
    rw [← hs]
    exact unlink_rootInv h
  | rmdir p n =>
    rw [step] at hs
    simp only [Option.some.injEq] at hs
    rw [← hs]
    exact unlink_rootInv h
  | forget i c =>
    rw [step] at hs
    rw [FsOp.touchesRoot] at hop
    exact forget_rootInv h (by simpa using hop) hs
  | batchForget l =>
    rw [step] at hs
    rw [FsOp.touchesRoot] at hop
    refine batch_rootInv l s s1 h ?_ hs
    intro r hr
    have := List.any_eq_false.mp hop r hr
    simpa using this
  | write i b o =>
    rw [step] at hs
    simp only [Option.some.injEq] at hs
    rw [← hs]
    exact write_rootInv h
  | setattr i au ag am asz vu vg vm vs =>
    rw [step] at hs
    simp only [Option.some.injEq] at hs
    rw [← hs]
    exact setattr_rootInv h
  | read i sz o =>
    rw [step] at hs
    simp only [Option.some.injEq] at hs
    rw [← hs]
    rw [SlabFs.read]
    rcases hg : Slab.get s i with _ | info
    · exact h
    dsimp only
    rcases hent : info.entry with d | ch
    · exact h
    · exact h
  | readdir i sz o =>
    rw [step] at hs
    rcases hr : SlabFs.readdir s i sz o with _ | r
    · rw [hr] at hs
      exact absurd hs (by simp)
    · rw [hr] at hs
      simp only [Option.map_some', Option.some.injEq] at hs
      rw [← hs]
      exact h

theorem reach_rootInv (junk : Nat → Nat) :
    ∀ (ops : List FsOp) (s : Slab), RootInv s →
      (∀ op ∈ ops, op.touchesRoot = false) →
      ∀ s1, ops.foldlM (step junk) s = some s1 → RootInv s1 := by
  intro ops
  induction ops with
  | nil =>
    intro s h _ s1 hf
    simp only [List.foldlM_nil] at hf
    cases hf
    exact h
  | cons op rest ih =>
    intro s h hops s1 hf
    rw [List.foldlM_cons] at hf
    rcases hstep : step junk s op with _ | s2
    · rw [hstep] at hf
      exact absurd hf (by simp)
    · rw [hstep] at hf
      have h2 : RootInv s2 :=
        step_rootInv h (hops op (List.mem_cons_self _ _)) hstep
      exact ih s2 h2 (fun q hq => hops q (List.mem_cons_of_mem _ hq)) s1 hf

/-- C8 amended: after every request sequence that contains no forget or
batch-forget aimed at identifier 1, the root is still a live slot whose
record has kind Directory.  (A forget aimed at identifier 1 can remove
the root — see the counterexample.) -/
theorem root_preserved (junk : Nat → Nat) (ops : List FsOp)
    (hops : ∀ op ∈ ops, op.touchesRoot = false) :
    ∀ s1, reach junk ops = some s1 →
      ∃ info, Slab.get s1 1 = some info ∧ info.entry.isDir = true := by
  intro s1 hr
  have hinv0 : RootInv SlabFs.new := by
    refine ⟨⟨InodeInfo.dirOf [47], rfl, rfl⟩, by decide, ?_⟩
    intro i m hj
    match i with
    | 0 => exact absurd hj (by simp [SlabFs.new])
    | 1 => exact absurd hj (by simp [SlabFs.new])
    | (j + 2) => exact absurd hj (by simp [SlabFs.new])
  have := reach_rootInv junk ops SlabFs.new hinv0 hops s1 hr
  exact this.1

/-- Witness for C8 on the sequence mkdir then forget of the new
directory: the root survives as a live directory record. -/
theorem root_preserved_witness :
    ∃ info, Slab.get
        ⟨[SlabEntry.occupied InodeInfo.empty,
          SlabEntry.occupied ⟨1, [47], 493, 1000, 100, FsEntry.dir [(2, [100])]⟩,
          SlabEntry.vacant 3], 2⟩ 1 = some info ∧
      info.entry.isDir = true :=
  root_preserved junk0 [FsOp.mkdir 1 [100] 493 1000 100, FsOp.forget 2 1]
    (by decide)
    ⟨[SlabEntry.occupied InodeInfo.empty,
      SlabEntry.occupied ⟨1, [47], 493, 1000, 100, FsEntry.dir [(2, [100])]⟩,
      SlabEntry.vacant 3], 2⟩
    (by decide)
